import Mathlib

/-!
# Verification of `theindra/wpt` fragment

Shallow embedding of the repository fragment: the `create_form_for_data`
helper (translated directly from the source) and a model of the DOM/HTML
engine behaviour that the iframe insertion/removal test script asserts.
The engine itself is not part of the repository (only its test script is),
so the engine definitions are modelled from the component design of the
specification, as marked in their doc comments.
-/

namespace Wpt

/-! ## Part 1: the form-building helper (`src/unnamed/part_000`)

```js
const create_form_for_data = data => {
  const form = new HTMLFormElement();
  for (let key in data) {
    if (data.hasOwnProperty(key)) {
      const input = new HTMLInputElement();
      input.type = key;
      input.value = data[key];
      form.appendChild(input);
    }
  }
  return form;
};
```
-/

/-- A JavaScript object as seen by `for..in` / `hasOwnProperty`: its own
enumerable string properties (in enumeration order) and the enumerable
properties reachable through the prototype chain. -/
structure JSObject where
  own : List (String × String)
  protoProps : List (String × String)
deriving Repr, DecidableEq

/-- `data.hasOwnProperty(key)`: true iff `key` is an own property. -/
def hasOwnProperty (data : JSObject) (key : String) : Bool :=
  data.own.any (fun p => p.1 == key)

/-- `data[key]`: own properties shadow prototype properties; an absent key
reads as the empty string (the value is only ever used after a positive
`hasOwnProperty` test in the source). -/
def getProp (data : JSObject) (key : String) : String :=
  match data.own.find? (fun p => p.1 == key) with
  | some p => p.2
  | none =>
    match data.protoProps.find? (fun p => p.1 == key) with
    | some p => p.2
    | none => ""

/-- The keys visited by `for (let key in data)`: own enumerable keys in
enumeration order, then prototype-chain keys not shadowed by an own key. -/
def forInKeys (data : JSObject) : List String :=
  data.own.map Prod.fst ++
    (data.protoProps.map Prod.fst).filter (fun k => !(data.own.map Prod.fst).contains k)

/-- `new HTMLInputElement()` with the two fields the source assigns. -/
structure HTMLInputElement where
  type : String
  value : String
deriving Repr, DecidableEq

/-- `new HTMLFormElement()`: a form is its list of appended children. -/
structure HTMLFormElement where
  children : List HTMLInputElement
deriving Repr, DecidableEq

/-- One `for..in` loop iteration of `create_form_for_data`. -/
def formStep (data : JSObject) (form : HTMLFormElement) (key : String) : HTMLFormElement :=
  if hasOwnProperty data key then
    { children := form.children ++ [⟨key, getProp data key⟩] }
  else
    form

/-- Direct translation of `create_form_for_data` from `src/unnamed/part_000`. -/
def create_form_for_data (data : JSObject) : HTMLFormElement :=
  (forInKeys data).foldl (formStep data) ⟨[]⟩

/-- One loop iteration of `create_form_for_data`, threading the data object
through as mutable state (the source never writes to it, which is what this
version makes checkable). -/
def formStepRun (acc : HTMLFormElement × JSObject) (key : String) :
    HTMLFormElement × JSObject :=
  if hasOwnProperty acc.2 key then
    ({ children := acc.1.children ++ [⟨key, getProp acc.2 key⟩] }, acc.2)
  else
    acc

/-- `create_form_for_data` with the data object threaded as state, so that
absence of mutation is a statement about the returned state. -/
def create_form_for_data_run (data : JSObject) : HTMLFormElement × JSObject :=
  (forInKeys data).foldl formStepRun (⟨[]⟩, data)



/-! ## Part 2: the engine behaviour asserted by
`src/dom/nodes/insertion-removal-steps-iframe.window.js`

The tree mutator, navigable lifecycle controller and mutation notifier live
in the host browser engine, outside this repository; they are modelled from
the component design (§4) and concurrency model (§5) of the specification. -/

/-- An element identifier (a navigable-owning element, i.e. an iframe). -/
abbrev ElemId := Nat

/-- An embedded-browsing-context (navigable) identifier. -/
abbrev CtxId := Nat

/-- Modelled from the spec: a mutation record is an immutable snapshot
`{added nodes, removed nodes}` produced by one synchronous mutation. -/
structure MutationRecord where
  addedNodes : List ElemId
  removedNodes : List ElemId
deriving Repr, DecidableEq

/-- Modelled from the spec: the script-observable signals — a "load" signal
fired synchronously by the insertion steps (carrying what the handler can
observe: the connected elements in document order and the live element/context
associations, whose second components form the frame list), an "unload"
signal, and a mutation-notifier callback invocation (carrying the delivered
records and the same observations at callback time). -/
inductive ScriptEvent where
  | load (elem : ElemId) (connSnap : List ElemId) (ctxSnap : List (ElemId × CtxId))
  | unload (elem : ElemId)
  | moCallback (records : List MutationRecord) (connSnap : List ElemId)
      (ctxSnap : List (ElemId × CtxId))
deriving Repr, DecidableEq

/-- A context-lifecycle bookkeeping entry: a context was created for, or
destroyed together with, a navigable-owning element. -/
inductive CtxOp where
  | created (elem : ElemId) (ctx : CtxId)
  | destroyed (elem : ElemId) (ctx : CtxId)
deriving Repr, DecidableEq

/-- Modelled from the spec: the engine state — the connected navigable-owning
elements in document order, the live element/context associations (document
order; their contexts are the frame list), a fresh-context counter, the
pending notification queue, the deferred unload signals, and the
context-lifecycle history. -/
structure EngineState where
  connected : List ElemId
  contexts : List (ElemId × CtxId)
  nextCtx : CtxId
  pendingRecords : List MutationRecord
  pendingUnloads : List ElemId
  ctxLog : List CtxOp
deriving Repr, DecidableEq

/-- The empty document: no elements, no contexts, nothing pending. -/
def initState : EngineState :=
  { connected := [], contexts := [], nextCtx := 0,
    pendingRecords := [], pendingUnloads := [], ctxLog := [] }

/-- `window.frames`: the live embedded browsing contexts, in document order. -/
def framesOf (st : EngineState) : List CtxId :=
  st.contexts.map Prod.snd

/-- `element.contentWindow` against a snapshot of the element/context
associations: the context owned by the element, if it is live. -/
def contentWindow (ctxs : List (ElemId × CtxId)) (e : ElemId) : Option CtxId :=
  (ctxs.find? (fun p => p.1 == e)).map Prod.snd

/-- Modelled from the spec: inserting one navigable-owning element — the
structural change happens first, then the navigable lifecycle controller
creates the embedded browsing context and the initial load completes inline,
firing the "load" signal before the call returns; the handler observes the
already-updated tree. An element that is already connected is left alone. -/
def insertOne (st : EngineState) (e : ElemId) : EngineState × List ScriptEvent :=
  if st.connected.contains e then
    (st, [])
  else
    let st1 : EngineState :=
      { st with
        connected := st.connected ++ [e],
        contexts := st.contexts ++ [(e, st.nextCtx)],
        nextCtx := st.nextCtx + 1,
        ctxLog := st.ctxLog ++ [CtxOp.created e st.nextCtx] }
    (st1, [ScriptEvent.load e st1.connected st1.contexts])

/-- Modelled from the spec: inserting a batch of nodes in document order;
the insertion hook of each node runs synchronously after its own structural
change, so it observes itself and all prior nodes of the batch but none of
the later ones. -/
def insertLoop (st : EngineState) (es : List ElemId) : EngineState × List ScriptEvent :=
  match es with
  | [] => (st, [])
  | e :: rest =>
    let p1 := insertOne st e
    let p2 := insertLoop p1.1 rest
    (p2.1, p1.2 ++ p2.2)

/-- Modelled from the spec: one batch insertion operation — run the
insertion loop, then enqueue one change record for the added nodes with the
mutation notifier. -/
def insertBatch (st : EngineState) (es : List ElemId) : EngineState × List ScriptEvent :=
  let p := insertLoop st es
  let added := p.1.connected.drop st.connected.length
  if added.isEmpty then
    p
  else
    ({ p.1 with pendingRecords := p.1.pendingRecords ++ [⟨added, []⟩] }, p.2)

/-- Modelled from the spec: one batch removal operation — the structural
change and the Active→Detached context transition happen inline, but no
script runs: the "unload" signals are deferred, and one change record with
all removed nodes is enqueued with the mutation notifier. The call returns
no script events, so script never observes an intermediate tree state. -/
def removeBatch (st : EngineState) (es : List ElemId) : EngineState × List ScriptEvent :=
  let removed := st.connected.filter (fun e => es.contains e)
  if removed.isEmpty then
    (st, [])
  else
    ({ st with
        connected := st.connected.filter (fun e => !es.contains e),
        contexts := st.contexts.filter (fun p => !es.contains p.1),
        pendingRecords := st.pendingRecords ++ [⟨[], removed⟩],
        pendingUnloads := st.pendingUnloads ++ removed,
        ctxLog := st.ctxLog ++
          (st.contexts.filter (fun p => es.contains p.1)).map
            (fun p => CtxOp.destroyed p.1 p.2) },
      [])

/-- Modelled from the spec: the microtask checkpoint — deferred teardown
fires the pending "unload" signals, and the mutation notifier flushes: all
queued records of the batch window are delivered in a single callback
invocation, then the queue is cleared atomically. -/
def microtask (st : EngineState) : EngineState × List ScriptEvent :=
  let unloadEvs := st.pendingUnloads.map ScriptEvent.unload
  let moEvs :=
    if st.pendingRecords.isEmpty then []
    else [ScriptEvent.moCallback st.pendingRecords st.connected st.contexts]
  ({ st with pendingRecords := [], pendingUnloads := [] }, unloadEvs ++ moEvs)

/-- The operations a script can perform against the model. -/
inductive Op where
  | insert (es : List ElemId)
  | remove (es : List ElemId)
  | checkpoint
deriving Repr, DecidableEq

/-- Apply one operation. -/
def applyOp (st : EngineState) : Op → EngineState × List ScriptEvent
  | Op.insert es => insertBatch st es
  | Op.remove es => removeBatch st es
  | Op.checkpoint => microtask st

/-- Run a sequence of operations, collecting the script events in order. -/
def run (st : EngineState) : List Op → EngineState × List ScriptEvent
  | [] => (st, [])
  | op :: ops =>
    let p1 := applyOp st op
    let p2 := run p1.1 ops
    (p2.1, p1.2 ++ p2.2)

/-- Is a script event a mutation-notifier callback invocation? -/
def isMOCallback : ScriptEvent → Bool
  | ScriptEvent.moCallback _ _ _ => true
  | _ => false

/-- Is a script event an "unload" signal? -/
def isUnload : ScriptEvent → Bool
  | ScriptEvent.unload _ => true
  | _ => false

/-- The (element, context) pairs of the `created` entries of a lifecycle
history, in order. -/
def createdPairs : List CtxOp → List (ElemId × CtxId)
  | [] => []
  | CtxOp.created e c :: rest => (e, c) :: createdPairs rest
  | CtxOp.destroyed _ _ :: rest => createdPairs rest

/-- The (element, context) pairs of the `destroyed` entries of a lifecycle
history, in order. -/
def destroyedPairs : List CtxOp → List (ElemId × CtxId)
  | [] => []
  | CtxOp.created _ _ :: rest => destroyedPairs rest
  | CtxOp.destroyed e c :: rest => (e, c) :: destroyedPairs rest

/-- The invariant of §3: a navigable-owning element has a live embedded
browsing context iff it is currently connected to the document tree. -/
def navCtxIffConnected (st : EngineState) : Prop :=
  ∀ e : ElemId, (contentWindow st.contexts e).isSome ↔ e ∈ st.connected

/-- The engine invariant: the live element/context associations are in
document order over exactly the connected elements, contexts are pairwise
distinct and fresh with respect to the counter, and the lifecycle history
never creates a context twice, never destroys one twice, destroys only
created contexts, and keeps live contexts distinct from destroyed ones. -/
structure Inv (st : EngineState) : Prop where
  keysConn : st.contexts.map Prod.fst = st.connected
  nodupConn : st.connected.Nodup
  nodupCtx : (st.contexts.map Prod.snd).Nodup
  ctxLt : ∀ p ∈ st.contexts, p.2 < st.nextCtx
  createdNodup : ((createdPairs st.ctxLog).map Prod.snd).Nodup
  createdLt : ∀ p ∈ createdPairs st.ctxLog, p.2 < st.nextCtx
  liveSubCreated : ∀ p ∈ st.contexts, p ∈ createdPairs st.ctxLog
  destSubCreated : ∀ p ∈ destroyedPairs st.ctxLog, p ∈ createdPairs st.ctxLog
  destroyedNodup : ((destroyedPairs st.ctxLog).map Prod.snd).Nodup
  liveNotDestroyed : ∀ p ∈ st.contexts, p.2 ∉ (destroyedPairs st.ctxLog).map Prod.snd

/-- What a load handler observes is consistent: the connected elements it
sees are exactly the owners of the live contexts it sees, in document order,
with no element repeated. -/
def GoodLoad (ev : ScriptEvent) : Prop :=
  ∀ e conn ctxs, ev = ScriptEvent.load e conn ctxs →
    conn = ctxs.map Prod.fst ∧ (ctxs.map Prod.fst).Nodup

def claim4_target : EngineState :=
  EngineState.mk [4] [(4, 0)] 1 [] [] [CtxOp.created 4 0]

section FormLemmas

/-- Looking up a member of an association list with `Nodup` keys finds
exactly that member. -/
lemma find?_of_mem_nodup {α β : Type} [DecidableEq α] (l : List (α × β)) (p : α × β)
    (hmem : p ∈ l) (hnd : (l.map Prod.fst).Nodup) :
    l.find? (fun q => q.1 == p.1) = some p := by
  induction l with
  | nil => cases hmem
  | cons a t ih =>
    simp only [List.map_cons, List.nodup_cons] at hnd
    rcases List.mem_cons.mp hmem with h | h
    · subst h
      exact List.find?_cons_of_pos _ (by simp)
    · have hne : a.1 ≠ p.1 := by
        intro he
        exact hnd.1 (he ▸ List.mem_map_of_mem Prod.fst h)
      rw [List.find?_cons_of_neg _ (by simpa using hne)]
      exact ih h hnd.2

lemma hasOwnProperty_of_mem (data : JSObject) (p : String × String)
    (hmem : p ∈ data.own) : hasOwnProperty data p.1 = true := by
  simp only [hasOwnProperty, List.any_eq_true]
  exact ⟨p, hmem, by simp⟩

lemma getProp_of_mem_nodup (data : JSObject) (p : String × String)
    (hmem : p ∈ data.own) (hnd : (data.own.map Prod.fst).Nodup) :
    getProp data p.1 = p.2 := by
  simp only [getProp, find?_of_mem_nodup data.own p hmem hnd]

/-- Folding `formStep` over keys that all pass the `hasOwnProperty` test and
all look up to their paired value appends exactly one input per pair. -/
lemma foldl_formStep_own (data : JSObject) (l : List (String × String))
    (hsub : ∀ p ∈ l, p ∈ data.own) (hnd : (data.own.map Prod.fst).Nodup) :
    ∀ acc : HTMLFormElement,
      (l.map Prod.fst).foldl (formStep data) acc =
        ⟨acc.children ++ l.map (fun p => ⟨p.1, p.2⟩)⟩ := by
  induction l with
  | nil => intro acc; simp
  | cons a t ih =>
    intro acc
    have ha : a ∈ data.own := hsub a (List.mem_cons_self a t)
    simp only [List.map_cons, List.foldl_cons]
    rw [formStep, if_pos (hasOwnProperty_of_mem data a ha),
      getProp_of_mem_nodup data a ha hnd,
      ih (fun p hp => hsub p (List.mem_cons_of_mem a hp))]
    simp

/-- Folding `formStep` over keys that all fail the `hasOwnProperty` test is
the identity. -/
lemma foldl_formStep_notOwn (data : JSObject) (ks : List String)
    (hks : ∀ k ∈ ks, hasOwnProperty data k = false) :
    ∀ acc : HTMLFormElement, ks.foldl (formStep data) acc = acc := by
  induction ks with
  | nil => intro acc; rfl
  | cons k t ih =>
    intro acc
    simp only [List.foldl_cons]
    rw [formStep, if_neg (by simp [hks k (List.mem_cons_self k t)]),
      ih (fun k hk => hks k (List.mem_cons_of_mem _ hk))]

lemma hasOwnProperty_eq_false_of_not_mem (data : JSObject) (k : String)
    (hk : k ∉ data.own.map Prod.fst) : hasOwnProperty data k = false := by
  simp only [hasOwnProperty, List.any_eq_false]
  intro p hp
  simp only [beq_iff_eq]
  intro he
  exact hk (he ▸ List.mem_map_of_mem Prod.fst hp)

/-- The characteristic equation of `create_form_for_data`: one input per own
key/value pair, in enumeration order, carrying exactly that pair. -/
lemma create_form_children (data : JSObject)
    (hnd : (data.own.map Prod.fst).Nodup) :
    (create_form_for_data data).children =
      data.own.map (fun p => HTMLInputElement.mk p.1 p.2) := by
  unfold create_form_for_data forInKeys
  rw [List.foldl_append,
    foldl_formStep_own data data.own (fun p hp => hp) hnd,
    foldl_formStep_notOwn data _ (fun k hk => by
      have := (List.mem_filter.mp hk).2
      exact hasOwnProperty_eq_false_of_not_mem data k (by
        simpa using this))]
  simp

/-- The state-threaded run never changes the data component and builds the
same form as the pure version. -/
lemma foldl_formStepRun (ks : List String) (data : JSObject) :
    ∀ acc : HTMLFormElement,
      ks.foldl formStepRun (acc, data) =
        (ks.foldl (formStep data) acc, data) := by
  induction ks with
  | nil => intro acc; rfl
  | cons k t ih =>
    intro acc
    simp only [List.foldl_cons, formStepRun, formStep]
    by_cases h : hasOwnProperty data k
    · rw [if_pos h, if_pos h, ih]
    · rw [if_neg h, if_neg h, ih]

end FormLemmas

section EngineLemmas

lemma createdPairs_append (l1 l2 : List CtxOp) :
    createdPairs (l1 ++ l2) = createdPairs l1 ++ createdPairs l2 := by
  induction l1 with
  | nil => rfl
  | cons a t ih => cases a <;> simp [createdPairs, ih]

lemma destroyedPairs_append (l1 l2 : List CtxOp) :
    destroyedPairs (l1 ++ l2) = destroyedPairs l1 ++ destroyedPairs l2 := by
  induction l1 with
  | nil => rfl
  | cons a t ih => cases a <;> simp [destroyedPairs, ih]

lemma createdPairs_destroyedMap (l : List (ElemId × CtxId)) :
    createdPairs (l.map (fun p => CtxOp.destroyed p.1 p.2)) = [] := by
  induction l with
  | nil => rfl
  | cons a t ih => simp [createdPairs, ih]

lemma destroyedPairs_destroyedMap (l : List (ElemId × CtxId)) :
    destroyedPairs (l.map (fun p => CtxOp.destroyed p.1 p.2)) = l := by
  induction l with
  | nil => rfl
  | cons a t ih => simp [destroyedPairs, ih]

lemma createdPairs_createdMap (l : List (ElemId × CtxId)) :
    createdPairs (l.map (fun p => CtxOp.created p.1 p.2)) = l := by
  induction l with
  | nil => rfl
  | cons a t ih => simp [createdPairs, ih]

lemma destroyedPairs_createdMap (l : List (ElemId × CtxId)) :
    destroyedPairs (l.map (fun p => CtxOp.created p.1 p.2)) = [] := by
  induction l with
  | nil => rfl
  | cons a t ih => simp [destroyedPairs, ih]

lemma map_fst_filter_key (l : List (ElemId × CtxId)) (q : ElemId → Bool) :
    (l.filter (fun p => q p.1)).map Prod.fst = (l.map Prod.fst).filter q := by
  induction l with
  | nil => rfl
  | cons a t ih => by_cases h : q a.1 <;> simp [List.filter_cons, h, ih]

lemma contentWindow_isSome_iff (ctxs : List (ElemId × CtxId)) (x : ElemId) :
    (contentWindow ctxs x).isSome ↔ x ∈ ctxs.map Prod.fst := by
  simp only [contentWindow, Option.isSome_map', List.find?_isSome, List.mem_map,
    beq_iff_eq]

/-- The fresh context is not among the live ones. -/
lemma fresh_not_mem_ctx (st : EngineState) (h : Inv st) :
    st.nextCtx ∉ st.contexts.map Prod.snd := by
  intro hm
  obtain ⟨p, hp, he⟩ := List.mem_map.mp hm
  exact absurd he (ne_of_lt (h.ctxLt p hp))

lemma fresh_not_mem_created (st : EngineState) (h : Inv st) :
    st.nextCtx ∉ (createdPairs st.ctxLog).map Prod.snd := by
  intro hm
  obtain ⟨p, hp, he⟩ := List.mem_map.mp hm
  exact absurd he (ne_of_lt (h.createdLt p hp))

/-- `insertOne` preserves the engine invariant. -/
lemma insertOne_inv (st : EngineState) (e : ElemId) (h : Inv st) :
    Inv (insertOne st e).1 := by
  unfold insertOne
  by_cases hmem : e ∈ st.connected
  · rw [if_pos (by simpa using hmem)]
    exact h
  · rw [if_neg (by simpa using hmem)]
    constructor
    · simp [h.keysConn]
    · simp [List.nodup_append, h.nodupConn, hmem]
    · simp only [List.map_append, List.map_cons, List.map_nil]
      rw [List.nodup_append]
      refine ⟨h.nodupCtx, List.nodup_singleton _, ?_⟩
      intro c hcm hcs
      rcases List.mem_singleton.mp hcs with rfl
      exact fresh_not_mem_ctx st h hcm
    · intro p hp
      rcases List.mem_append.mp hp with hp | hp
      · exact Nat.lt_trans (h.ctxLt p hp) (Nat.lt_succ_self _)
      · rcases List.mem_singleton.mp hp with rfl
        exact Nat.lt_succ_self _
    · simp only [createdPairs_append]
      rw [show createdPairs [CtxOp.created e st.nextCtx] = [(e, st.nextCtx)] from rfl]
      simp only [List.map_append, List.map_cons, List.map_nil]
      rw [List.nodup_append]
      refine ⟨h.createdNodup, List.nodup_singleton _, ?_⟩
      intro c hcm hcs
      rcases List.mem_singleton.mp hcs with rfl
      exact fresh_not_mem_created st h hcm
    · intro p hp
      rw [createdPairs_append] at hp
      rcases List.mem_append.mp hp with hp | hp
      · exact Nat.lt_trans (h.createdLt p hp) (Nat.lt_succ_self _)
      · rcases List.mem_singleton.mp hp with rfl
        exact Nat.lt_succ_self _
    · intro p hp
      rw [createdPairs_append]
      rcases List.mem_append.mp hp with hp | hp
      · exact List.mem_append_left _ (h.liveSubCreated p hp)
      · rcases List.mem_singleton.mp hp with rfl
        exact List.mem_append_right _ (by simp [createdPairs])
    · intro p hp
      rw [destroyedPairs_append] at hp
      rw [createdPairs_append]
      rcases List.mem_append.mp hp with hp | hp
      · exact List.mem_append_left _ (h.destSubCreated p hp)
      · simp [destroyedPairs] at hp
    · rw [destroyedPairs_append]
      simpa [destroyedPairs] using h.destroyedNodup
    · intro p hp
      rw [destroyedPairs_append]
      rcases List.mem_append.mp hp with hp | hp
      · simpa [destroyedPairs] using h.liveNotDestroyed p hp
      · rcases List.mem_singleton.mp hp with rfl
        simp only [destroyedPairs, List.append_nil]
        intro hm
        obtain ⟨q, hq, he⟩ := List.mem_map.mp hm
        exact absurd he (ne_of_lt (h.createdLt q (h.destSubCreated q hq)))

/-- `removeBatch` preserves the engine invariant. -/
lemma removeBatch_inv (st : EngineState) (es : List ElemId) (h : Inv st) :
    Inv (removeBatch st es).1 := by
  unfold removeBatch
  by_cases hemp : (st.connected.filter (fun e => es.contains e)).isEmpty
  · rw [if_pos hemp]
    exact h
  · rw [if_neg hemp]
    constructor
    · show List.map Prod.fst (st.contexts.filter (fun p => (fun e => !es.contains e) p.1)) =
        st.connected.filter (fun e => !es.contains e)
      rw [map_fst_filter_key st.contexts (fun e => !es.contains e), h.keysConn]
    · exact h.nodupConn.filter _
    · exact h.nodupCtx.sublist (List.Sublist.map Prod.snd (List.filter_sublist _))
    · intro p hp
      exact h.ctxLt p (List.mem_of_mem_filter hp)
    · rw [createdPairs_append, createdPairs_destroyedMap, List.append_nil]
      exact h.createdNodup
    · intro p hp
      rw [createdPairs_append, createdPairs_destroyedMap, List.append_nil] at hp
      exact h.createdLt p hp
    · intro p hp
      rw [createdPairs_append, createdPairs_destroyedMap, List.append_nil]
      exact h.liveSubCreated p (List.mem_of_mem_filter hp)
    · intro p hp
      rw [destroyedPairs_append, destroyedPairs_destroyedMap] at hp
      rw [createdPairs_append, createdPairs_destroyedMap, List.append_nil]
      rcases List.mem_append.mp hp with hp | hp
      · exact h.destSubCreated p hp
      · exact h.liveSubCreated p (List.mem_of_mem_filter hp)
    · rw [destroyedPairs_append, destroyedPairs_destroyedMap, List.map_append,
        List.nodup_append]
      refine ⟨h.destroyedNodup,
        h.nodupCtx.sublist (List.Sublist.map Prod.snd (List.filter_sublist _)), ?_⟩
      intro c hc1 hc2
      obtain ⟨p, hp, he⟩ := List.mem_map.mp hc2
      exact h.liveNotDestroyed p (List.mem_of_mem_filter hp) (he ▸ hc1)
    · intro p hp
      rw [destroyedPairs_append, destroyedPairs_destroyedMap, List.map_append]
      intro hm
      rcases List.mem_append.mp hm with hm | hm
      · exact h.liveNotDestroyed p (List.mem_of_mem_filter hp) hm
      · obtain ⟨q, hq, he⟩ := List.mem_map.mp hm
        have hpq : q = p := List.inj_on_of_nodup_map h.nodupCtx
          (List.mem_of_mem_filter hq) (List.mem_of_mem_filter hp) he
        have h1 := (List.mem_filter.mp hq).2
        have h2 := (List.mem_filter.mp hp).2
        rw [hpq] at h1
        simp only [Bool.not_eq_true'] at h2
        rw [h1] at h2
        cases h2

/-- `microtask` preserves the engine invariant. -/
lemma microtask_inv (st : EngineState) (h : Inv st) : Inv (microtask st).1 :=
  ⟨h.keysConn, h.nodupConn, h.nodupCtx, h.ctxLt, h.createdNodup, h.createdLt,
    h.liveSubCreated, h.destSubCreated, h.destroyedNodup, h.liveNotDestroyed⟩

/-- The insertion loop preserves the engine invariant. -/
lemma insertLoop_inv (es : List ElemId) :
    ∀ st : EngineState, Inv st → Inv (insertLoop st es).1 := by
  induction es with
  | nil => intro st h; exact h
  | cons e rest ih =>
    intro st h
    exact ih (insertOne st e).1 (insertOne_inv st e h)

/-- `insertBatch` preserves the engine invariant. -/
lemma insertBatch_inv (st : EngineState) (es : List ElemId) (h : Inv st) :
    Inv (insertBatch st es).1 := by
  unfold insertBatch
  have h1 := insertLoop_inv es st h
  by_cases hemp : ((insertLoop st es).1.connected.drop st.connected.length).isEmpty
  · rw [if_pos hemp]
    exact h1
  · rw [if_neg hemp]
    exact ⟨h1.keysConn, h1.nodupConn, h1.nodupCtx, h1.ctxLt, h1.createdNodup,
      h1.createdLt, h1.liveSubCreated, h1.destSubCreated, h1.destroyedNodup,
      h1.liveNotDestroyed⟩

/-- Every operation preserves the engine invariant. -/
lemma applyOp_inv (st : EngineState) (op : Op) (h : Inv st) :
    Inv (applyOp st op).1 := by
  cases op with
  | insert es => exact insertBatch_inv st es h
  | remove es => exact removeBatch_inv st es h
  | checkpoint => exact microtask_inv st h

/-- Running any operation sequence preserves the engine invariant. -/
lemma run_inv (ops : List Op) :
    ∀ st : EngineState, Inv st → Inv (run st ops).1 := by
  induction ops with
  | nil => intro st h; exact h
  | cons op rest ih =>
    intro st h
    exact ih (applyOp st op).1 (applyOp_inv st op h)

/-- The empty document satisfies the engine invariant. -/
lemma initState_inv : Inv initState := by
  constructor <;> simp [initState, createdPairs, destroyedPairs]

lemma insertOne_good (st : EngineState) (e : ElemId) (h : Inv st) :
    ∀ ev ∈ (insertOne st e).2, GoodLoad ev := by
  unfold insertOne
  by_cases hmem : e ∈ st.connected
  · rw [if_pos (by simpa using hmem)]
    intro ev hev
    cases hev
  · rw [if_neg (by simpa using hmem)]
    intro ev hev
    rcases List.mem_singleton.mp hev with rfl
    intro x conn ctxs heq
    cases heq
    constructor
    · rw [List.map_append, h.keysConn]
      rfl
    · rw [List.map_append, h.keysConn]
      simp [List.nodup_append, h.nodupConn, hmem]

lemma insertLoop_good (es : List ElemId) :
    ∀ st : EngineState, Inv st → ∀ ev ∈ (insertLoop st es).2, GoodLoad ev := by
  induction es with
  | nil =>
    intro st _ ev hev
    cases hev
  | cons e rest ih =>
    intro st h ev hev
    rcases List.mem_append.mp hev with hev | hev
    · exact insertOne_good st e h ev hev
    · exact ih (insertOne st e).1 (insertOne_inv st e h) ev hev

lemma insertBatch_events (st : EngineState) (es : List ElemId) :
    (insertBatch st es).2 = (insertLoop st es).2 := by
  unfold insertBatch
  dsimp only
  split <;> rfl

lemma removeBatch_events (st : EngineState) (es : List ElemId) :
    (removeBatch st es).2 = [] := by
  unfold removeBatch
  dsimp only
  split <;> rfl

lemma microtask_good (st : EngineState) :
    ∀ ev ∈ (microtask st).2, GoodLoad ev := by
  intro ev hev
  unfold microtask at hev
  rcases List.mem_append.mp hev with hev | hev
  · obtain ⟨x, _, rfl⟩ := List.mem_map.mp hev
    intro e conn ctxs heq
    simp at heq
  · have : ev = ScriptEvent.moCallback st.pendingRecords st.connected st.contexts := by
      by_cases hemp : st.pendingRecords.isEmpty <;> simp [hemp] at hev
      · exact hev
    subst this
    intro e conn ctxs heq
    simp at heq

lemma applyOp_good (st : EngineState) (op : Op) (h : Inv st) :
    ∀ ev ∈ (applyOp st op).2, GoodLoad ev := by
  cases op with
  | insert es =>
    intro ev hev
    rw [show applyOp st (Op.insert es) = insertBatch st es from rfl,
      insertBatch_events] at hev
    exact insertLoop_good es st h ev hev
  | remove es =>
    intro ev hev
    rw [show applyOp st (Op.remove es) = removeBatch st es from rfl,
      removeBatch_events] at hev
    cases hev
  | checkpoint => exact microtask_good st

lemma run_good (ops : List Op) :
    ∀ st : EngineState, Inv st → ∀ ev ∈ (run st ops).2, GoodLoad ev := by
  induction ops with
  | nil =>
    intro st _ ev hev
    cases hev
  | cons op rest ih =>
    intro st h ev hev
    rcases List.mem_append.mp hev with hev | hev
    · exact applyOp_good st op h ev hev
    · exact ih (applyOp st op).1 (applyOp_inv st op h) ev hev

/-- With `Nodup` keys, looking up the `i`-th key of an association list
yields the `i`-th value. -/
lemma contentWindow_getD (ctxs : List (ElemId × CtxId)) :
    (ctxs.map Prod.fst).Nodup → ∀ i, i < ctxs.length →
      contentWindow ctxs ((ctxs.map Prod.fst).getD i 0) =
        some ((ctxs.map Prod.snd).getD i 0) := by
  induction ctxs with
  | nil =>
    intro _ i hi
    exact absurd hi (Nat.not_lt_zero i)
  | cons a t ih =>
    intro hnd i hi
    have hnd' : (t.map Prod.fst).Nodup := (List.nodup_cons.mp (by simpa using hnd)).2
    have ha : a.1 ∉ t.map Prod.fst := (List.nodup_cons.mp (by simpa using hnd)).1
    cases i with
    | zero =>
      simp only [List.map_cons, List.getD_cons_zero]
      unfold contentWindow
      rw [List.find?_cons_of_pos _ (by simp)]
      rfl
    | succ k =>
      have hk : k < t.length := Nat.lt_of_succ_lt_succ hi
      have hmem : (t.map Prod.fst).getD k 0 ∈ t.map Prod.fst := by
        rw [List.getD_eq_getElem _ _ (by simpa using hk)]
        exact List.getElem_mem _
      simp only [List.map_cons, List.getD_cons_succ]
      unfold contentWindow
      rw [List.find?_cons_of_neg _ (by
        simp only [beq_iff_eq]
        intro he
        exact ha (he ▸ hmem))]
      exact ih hnd' k hk

/-- The context/connection equivalence, restated on the key list. -/
lemma navCtx_iff (st : EngineState) :
    navCtxIffConnected st ↔
      ∀ e, e ∈ st.contexts.map Prod.fst ↔ e ∈ st.connected := by
  unfold navCtxIffConnected
  simp only [contentWindow_isSome_iff]

/-- Inserting one element preserves the context/connection equivalence. -/
lemma insertOne_navCtx (st : EngineState) (e : ElemId)
    (h : navCtxIffConnected st) : navCtxIffConnected (insertOne st e).1 := by
  unfold insertOne
  by_cases hmem : e ∈ st.connected
  · rw [if_pos (by simpa using hmem)]
    exact h
  · rw [if_neg (by simpa using hmem)]
    rw [navCtx_iff] at h ⊢
    intro x
    dsimp only
    simp only [List.map_append, List.mem_append, h x]
    simp

lemma insertLoop_navCtx (es : List ElemId) :
    ∀ st : EngineState, navCtxIffConnected st →
      navCtxIffConnected (insertLoop st es).1 := by
  induction es with
  | nil => intro st h; exact h
  | cons e rest ih =>
    intro st h
    exact ih (insertOne st e).1 (insertOne_navCtx st e h)

lemma insertBatch_navCtx (st : EngineState) (es : List ElemId)
    (h : navCtxIffConnected st) : navCtxIffConnected (insertBatch st es).1 := by
  have h1 := insertLoop_navCtx es st h
  unfold insertBatch
  dsimp only
  split
  · exact h1
  · exact h1

lemma removeBatch_navCtx (st : EngineState) (es : List ElemId)
    (h : navCtxIffConnected st) : navCtxIffConnected (removeBatch st es).1 := by
  unfold removeBatch
  dsimp only
  split
  · exact h
  · rw [navCtx_iff] at h ⊢
    intro x
    dsimp only
    rw [map_fst_filter_key st.contexts (fun e => !es.contains e)]
    simp only [List.mem_filter, h x]

lemma microtask_navCtx (st : EngineState) (h : navCtxIffConnected st) :
    navCtxIffConnected (microtask st).1 :=
  h

lemma applyOp_navCtx (st : EngineState) (op : Op)
    (h : navCtxIffConnected st) : navCtxIffConnected (applyOp st op).1 := by
  cases op with
  | insert es => exact insertBatch_navCtx st es h
  | remove es => exact removeBatch_navCtx st es h
  | checkpoint => exact microtask_navCtx st h

lemma run_navCtx (ops : List Op) :
    ∀ st : EngineState, navCtxIffConnected st →
      navCtxIffConnected (run st ops).1 := by
  induction ops with
  | nil => intro st h; exact h
  | cons op rest ih =>
    intro st h
    exact ih (applyOp st op).1 (applyOp_navCtx st op h)

lemma initState_navCtx : navCtxIffConnected initState := by
  intro e
  simp [contentWindow, initState]

lemma map_range_add_succ (n k : Nat) :
    (List.range (k+1)).map (fun j => n + j) =
      n :: (List.range k).map (fun j => (n + 1) + j) := by
  rw [List.range_succ_eq_map, List.map_cons, List.map_map]
  refine congrArg₂ _ (by omega) (List.map_congr_left ?_)
  intro j hj
  simp [Function.comp]
  omega

lemma insertOne_fresh (st : EngineState) (e : ElemId) (hmem : e ∉ st.connected) :
    insertOne st e =
      ({ st with
          connected := st.connected ++ [e],
          contexts := st.contexts ++ [(e, st.nextCtx)],
          nextCtx := st.nextCtx + 1,
          ctxLog := st.ctxLog ++ [CtxOp.created e st.nextCtx] },
        [ScriptEvent.load e (st.connected ++ [e]) (st.contexts ++ [(e, st.nextCtx)])]) := by
  unfold insertOne
  rw [if_neg (by simpa using hmem)]

/-- Full characterisation of the insertion loop on fresh, distinct elements:
the final state appends the batch (elements paired with consecutively
allocated contexts), and the synchronous events are the load signals in
document order, where the `i`-th handler observes exactly the first `i+1`
elements of the batch and their contexts. -/
lemma insertLoop_spec (es : List ElemId) :
    ∀ st : EngineState, es.Nodup → (∀ e ∈ es, e ∉ st.connected) →
      (insertLoop st es).1 =
        { st with
          connected := st.connected ++ es,
          contexts := st.contexts ++
            es.zip ((List.range es.length).map (fun j => st.nextCtx + j)),
          nextCtx := st.nextCtx + es.length,
          ctxLog := st.ctxLog ++
            (es.zip ((List.range es.length).map (fun j => st.nextCtx + j))).map
              (fun p => CtxOp.created p.1 p.2) } ∧
      (insertLoop st es).2 =
        (List.range es.length).map (fun i =>
          ScriptEvent.load (es.getD i 0)
            (st.connected ++ es.take (i+1))
            (st.contexts ++
              (es.take (i+1)).zip ((List.range (i+1)).map (fun j => st.nextCtx + j)))) := by
  induction es with
  | nil =>
    intro st _ _
    refine ⟨?_, rfl⟩
    show st = _
    simp
  | cons e rest ih =>
    intro st hnd hfresh
    obtain ⟨hne, hndr⟩ := List.nodup_cons.mp hnd
    have hmem : e ∉ st.connected := hfresh e (List.mem_cons_self e rest)
    have hfresh1 : ∀ x ∈ rest, x ∉ st.connected ++ [e] := by
      intro x hx hmem'
      rcases List.mem_append.mp hmem' with hc | hc
      · exact hfresh x (List.mem_cons_of_mem e hx) hc
      · rcases List.mem_singleton.mp hc with rfl
        exact hne hx
    simp only [insertLoop]
    rw [insertOne_fresh st e hmem]
    dsimp only
    obtain ⟨hst, hevs⟩ := ih
      { st with
        connected := st.connected ++ [e],
        contexts := st.contexts ++ [(e, st.nextCtx)],
        nextCtx := st.nextCtx + 1,
        ctxLog := st.ctxLog ++ [CtxOp.created e st.nextCtx] }
      hndr hfresh1
    refine ⟨?_, ?_⟩
    · rw [hst]
      simp only [List.length_cons]
      rw [map_range_add_succ st.nextCtx rest.length, List.zip_cons_cons, List.map_cons]
      have hn : st.nextCtx + 1 + rest.length = st.nextCtx + (rest.length + 1) := by
        rw [Nat.add_assoc, Nat.add_comm 1 rest.length]
      simp [List.append_assoc, hn]
    · rw [hevs]
      simp only [List.length_cons]
      rw [List.range_succ_eq_map, List.map_cons, List.map_map, List.singleton_append]
      refine congrArg₂ List.cons rfl ((List.map_congr_left ?_).symm)
      intro i hi
      simp only [Function.comp_apply, Nat.succ_eq_add_one, List.getD_cons_succ,
        List.take_succ_cons]
      rw [map_range_add_succ st.nextCtx (i + 1), List.zip_cons_cons]
      simp [List.append_assoc]

/-- The state after a batch removal that actually removes something. -/
lemma removeBatch_state (st : EngineState) (es : List ElemId)
    (hne : st.connected.filter (fun e => es.contains e) ≠ []) :
    (removeBatch st es).1 =
      { st with
        connected := st.connected.filter (fun e => !es.contains e),
        contexts := st.contexts.filter (fun p => !es.contains p.1),
        pendingRecords := st.pendingRecords ++
          [⟨[], st.connected.filter (fun e => es.contains e)⟩],
        pendingUnloads := st.pendingUnloads ++ st.connected.filter (fun e => es.contains e),
        ctxLog := st.ctxLog ++
          (st.contexts.filter (fun p => es.contains p.1)).map
            (fun p => CtxOp.destroyed p.1 p.2) } := by
  unfold removeBatch
  dsimp only
  rw [if_neg (by simpa [List.isEmpty_iff] using hne)]

/-- The events of a microtask checkpoint with a non-empty notification
queue: the deferred unload signals, then the single notifier callback. -/
lemma microtask_events (st : EngineState) (h : st.pendingRecords ≠ []) :
    (microtask st).2 = st.pendingUnloads.map ScriptEvent.unload ++
      [ScriptEvent.moCallback st.pendingRecords st.connected st.contexts] := by
  unfold microtask
  dsimp only
  rw [if_neg (by simpa [List.isEmpty_iff] using h)]

lemma countP_unload_map (l : List ElemId) :
    (l.map ScriptEvent.unload).countP isMOCallback = 0 := by
  induction l with
  | nil => rfl
  | cons a t ih => simp [List.countP_cons, isMOCallback, ih]

end EngineLemmas

/-! ## Claim theorems -/

/-- C1: for every batch insertion of K navigable-owning elements in one
synchronous span, the load hook of each element runs synchronously, in
document order, before the insertion call returns; the hook of element `i`
(1-indexed) observes exactly `i` connected navigable-owning elements — itself
and all prior elements of the batch — and none of the elements `i+1..K`. -/
theorem claim1 (es : List ElemId) (hnd : es.Nodup) :
    ((insertBatch initState es).2 =
      (List.range es.length).map (fun i =>
        ScriptEvent.load (es.getD i 0) (es.take (i+1))
          ((es.take (i+1)).zip (List.range (i+1))))) ∧
    (∀ i, i < es.length → (es.take (i+1)).length = i + 1) ∧
    (∀ i j : Nat, i < j → j < es.length → es.getD j 0 ∉ es.take (i+1)) := by
  have hfresh : ∀ e ∈ es, e ∉ initState.connected := by
    intro e he hc
    cases hc
  obtain ⟨hst, hevs⟩ := insertLoop_spec es initState hnd hfresh
  refine ⟨?_, ?_, ?_⟩
  · rw [insertBatch_events, hevs]
    refine List.map_congr_left ?_
    intro i hi
    simp [initState]
  · intro i hi
    rw [List.length_take]
    omega
  · intro i j hij hj hm
    obtain ⟨k, hk, he⟩ := List.mem_iff_getElem.mp hm
    rw [List.length_take] at hk
    have hk2 : k < es.length := by omega
    rw [List.getElem_take] at he
    rw [List.getD_eq_getElem es 0 hj] at he
    have hkj : k = j := (List.Nodup.getElem_inj_iff hnd).mp he
    omega

theorem claim1_witness :
    ([3, 5] : List ElemId).Nodup ∧
    (((insertBatch initState [3, 5]).2 =
      (List.range ([3, 5] : List ElemId).length).map (fun i =>
        ScriptEvent.load (([3, 5] : List ElemId).getD i 0)
          (([3, 5] : List ElemId).take (i+1))
          ((([3, 5] : List ElemId).take (i+1)).zip (List.range (i+1))))) ∧
    (∀ i, i < ([3, 5] : List ElemId).length →
      (([3, 5] : List ElemId).take (i+1)).length = i + 1) ∧
    (∀ i j : Nat, i < j → j < ([3, 5] : List ElemId).length →
      ([3, 5] : List ElemId).getD j 0 ∉ ([3, 5] : List ElemId).take (i+1))) :=
  ⟨by decide, claim1 [3, 5] (by decide)⟩

/-- C2: for every batch window of removals, the mutation-notifier callback is
invoked zero times before the end of the triggering synchronous span and
exactly once thereafter, delivering one mutation record that reports all K
removed nodes of the span; a further checkpoint delivers nothing more. -/
theorem claim2 (st : EngineState) (es : List ElemId)
    (hpr : st.pendingRecords = [])
    (hne : st.connected.filter (fun e => es.contains e) ≠ []) :
    ((removeBatch st es).2.countP isMOCallback = 0) ∧
    ((microtask (removeBatch st es).1).2.countP isMOCallback = 1) ∧
    (ScriptEvent.moCallback [⟨[], st.connected.filter (fun e => es.contains e)⟩]
        (removeBatch st es).1.connected (removeBatch st es).1.contexts
      ∈ (microtask (removeBatch st es).1).2) ∧
    ((microtask (microtask (removeBatch st es).1).1).2.countP isMOCallback = 0) := by
  have hrb := removeBatch_state st es hne
  have hpr1 : (removeBatch st es).1.pendingRecords =
      [⟨[], st.connected.filter (fun e => es.contains e)⟩] := by
    rw [hrb]
    simp [hpr]
  refine ⟨?_, ?_, ?_, ?_⟩
  · rw [removeBatch_events]
    rfl
  · rw [microtask_events _ (by rw [hpr1]; simp)]
    rw [List.countP_append, countP_unload_map]
    simp [List.countP_cons, isMOCallback]
  · rw [microtask_events _ (by rw [hpr1]; simp)]
    refine List.mem_append_right _ ?_
    rw [hpr1]
    simp
  · rfl

theorem claim2_witness :
    ((EngineState.mk [7] [(7, 0)] 1 [] [] [CtxOp.created 7 0]).pendingRecords = []) ∧
    (((EngineState.mk [7] [(7, 0)] 1 [] [] [CtxOp.created 7 0]).connected.filter
        (fun e => ([7] : List ElemId).contains e) ≠ [])) ∧
    (((removeBatch (EngineState.mk [7] [(7, 0)] 1 [] [] [CtxOp.created 7 0]) [7]).2.countP
        isMOCallback = 0) ∧
    ((microtask (removeBatch (EngineState.mk [7] [(7, 0)] 1 [] [] [CtxOp.created 7 0])
        [7]).1).2.countP isMOCallback = 1) ∧
    (ScriptEvent.moCallback
        [⟨[], (EngineState.mk [7] [(7, 0)] 1 [] [] [CtxOp.created 7 0]).connected.filter
          (fun e => ([7] : List ElemId).contains e)⟩]
        (removeBatch (EngineState.mk [7] [(7, 0)] 1 [] [] [CtxOp.created 7 0]) [7]).1.connected
        (removeBatch (EngineState.mk [7] [(7, 0)] 1 [] [] [CtxOp.created 7 0]) [7]).1.contexts
      ∈ (microtask (removeBatch (EngineState.mk [7] [(7, 0)] 1 [] [] [CtxOp.created 7 0])
          [7]).1).2) ∧
    ((microtask (microtask (removeBatch (EngineState.mk [7] [(7, 0)] 1 [] []
        [CtxOp.created 7 0]) [7]).1).1).2.countP isMOCallback = 0)) :=
  ⟨rfl, by decide, claim2 (EngineState.mk [7] [(7, 0)] 1 [] [] [CtxOp.created 7 0]) [7]
    rfl (by decide)⟩

/-- C3: removing K connected navigable-owning elements in one synchronous
span fires no unload signal and runs no script before the span completes:
the removal call returns no script events at all, and merely schedules the
deferred teardown of every removed element. -/
theorem claim3 (st : EngineState) (es : List ElemId) :
    ((removeBatch st es).2 = []) ∧
    ((removeBatch st es).2.countP isUnload = 0) ∧
    ((removeBatch st es).1.pendingUnloads =
      st.pendingUnloads ++ st.connected.filter (fun e => es.contains e)) := by
  refine ⟨removeBatch_events st es, by rw [removeBatch_events]; rfl, ?_⟩
  by_cases hne : st.connected.filter (fun e => es.contains e) = []
  · unfold removeBatch
    dsimp only
    rw [if_pos (by simpa [List.isEmpty_iff] using hne), hne, List.append_nil]
  · rw [removeBatch_state st es hne]

/-- C4: at the moment the deferred mutation-notifier callback for a removal
batch runs, no element removed in that batch is still connected or queryable
and the frame list is empty (no live contexts remain). -/
theorem claim4 (st : EngineState) (es : List ElemId) (hInv : Inv st)
    (hall : ∀ e ∈ st.connected, es.contains e = true) (hne : st.connected ≠ [])
    (hpr : st.pendingRecords = []) :
    ((removeBatch st es).1.connected = []) ∧
    ((removeBatch st es).1.contexts = []) ∧
    (framesOf (removeBatch st es).1 = []) ∧
    (ScriptEvent.moCallback [⟨[], st.connected⟩] [] []
      ∈ (microtask (removeBatch st es).1).2) := by
  have hfilter : st.connected.filter (fun e => es.contains e) = st.connected :=
    List.filter_eq_self.mpr hall
  have hne2 : st.connected.filter (fun e => es.contains e) ≠ [] := by
    rw [hfilter]
    exact hne
  have hrb := removeBatch_state st es hne2
  have hconn : st.connected.filter (fun e => !es.contains e) = [] := by
    rw [List.filter_eq_nil_iff]
    intro a ha
    have hc : a ∈ es := by simpa using hall a ha
    simp [hc]
  have hctx : st.contexts.filter (fun p => !es.contains p.1) = [] := by
    rw [List.filter_eq_nil_iff]
    intro p hp
    have hp1 : p.1 ∈ st.connected := by
      rw [← hInv.keysConn]
      exact List.mem_map_of_mem Prod.fst hp
    have hc : p.1 ∈ es := by simpa using hall p.1 hp1
    simp [hc]
  have h1 : (removeBatch st es).1.connected = [] := by
    rw [hrb]
    exact hconn
  have h2 : (removeBatch st es).1.contexts = [] := by
    rw [hrb]
    exact hctx
  refine ⟨h1, h2, ?_, ?_⟩
  · unfold framesOf
    rw [h2]
    rfl
  · rw [microtask_events _ (by rw [hrb]; simp [hpr])]
    refine List.mem_append_right _ ?_
    rw [hrb]
    refine List.mem_singleton.mpr ?_
    rw [hpr, hfilter, hconn, hctx, List.nil_append]

theorem claim4_witness :
    Inv claim4_target ∧
    (∀ e ∈ claim4_target.connected, ([4] : List ElemId).contains e = true) ∧
    claim4_target.connected ≠ [] ∧
    claim4_target.pendingRecords = [] ∧
    (((removeBatch claim4_target [4]).1.connected = []) ∧
      ((removeBatch claim4_target [4]).1.contexts = []) ∧
      (framesOf (removeBatch claim4_target [4]).1 = []) ∧
      (ScriptEvent.moCallback [⟨[], claim4_target.connected⟩] [] []
        ∈ (microtask (removeBatch claim4_target [4]).1).2)) :=
  ⟨by constructor <;> decide, by decide, by decide, rfl,
    claim4 claim4_target [4] (by constructor <;> decide) (by decide) (by decide) rfl⟩

/-- C5: a navigable-owning element has a live embedded browsing context iff
it is currently connected — the equivalence holds in every reachable state,
and every single operation preserves it from any state satisfying it. -/
theorem claim5 :
    (∀ ops : List Op, navCtxIffConnected (run initState ops).1) ∧
    (∀ (st : EngineState) (op : Op),
      navCtxIffConnected st → navCtxIffConnected (applyOp st op).1) :=
  ⟨fun ops => run_navCtx ops initState initState_navCtx,
   fun st op h => applyOp_navCtx st op h⟩

theorem claim5_witness :
    navCtxIffConnected (run initState [Op.insert [1, 2], Op.remove [1]]).1 ∧
    navCtxIffConnected (applyOp initState (Op.insert [2])).1 :=
  ⟨claim5.1 [Op.insert [1, 2], Op.remove [1]],
   claim5.2 initState (Op.insert [2]) initState_navCtx⟩

/-- C6: over any sequence of insertions and removals, every created context
is created exactly once, every destroyed context is destroyed exactly once
and was previously created for the same element, and no context is ever
shared between two elements. -/
theorem claim6 (ops : List Op) :
    (((createdPairs (run initState ops).1.ctxLog).map Prod.snd).Nodup) ∧
    (((destroyedPairs (run initState ops).1.ctxLog).map Prod.snd).Nodup) ∧
    (∀ p ∈ destroyedPairs (run initState ops).1.ctxLog,
      p ∈ createdPairs (run initState ops).1.ctxLog) ∧
    (∀ p q, p ∈ createdPairs (run initState ops).1.ctxLog →
      q ∈ createdPairs (run initState ops).1.ctxLog → p.2 = q.2 → p = q) := by
  have h := run_inv ops initState initState_inv
  exact ⟨h.createdNodup, h.destroyedNodup, h.destSubCreated,
    fun p q hp hq he => List.inj_on_of_nodup_map h.createdNodup hp hq he⟩

theorem claim6_witness :
    (((createdPairs (run initState [Op.insert [1, 2], Op.remove [2],
        Op.checkpoint, Op.insert [2]]).1.ctxLog).map Prod.snd).Nodup) ∧
    (((destroyedPairs (run initState [Op.insert [1, 2], Op.remove [2],
        Op.checkpoint, Op.insert [2]]).1.ctxLog).map Prod.snd).Nodup) ∧
    (∀ p ∈ destroyedPairs (run initState [Op.insert [1, 2], Op.remove [2],
        Op.checkpoint, Op.insert [2]]).1.ctxLog,
      p ∈ createdPairs (run initState [Op.insert [1, 2], Op.remove [2],
        Op.checkpoint, Op.insert [2]]).1.ctxLog) ∧
    (∀ p q, p ∈ createdPairs (run initState [Op.insert [1, 2], Op.remove [2],
        Op.checkpoint, Op.insert [2]]).1.ctxLog →
      q ∈ createdPairs (run initState [Op.insert [1, 2], Op.remove [2],
        Op.checkpoint, Op.insert [2]]).1.ctxLog → p.2 = q.2 → p = q) :=
  claim6 [Op.insert [1, 2], Op.remove [2], Op.checkpoint, Op.insert [2]]

/-- C8: the frame list order matches document order — in every reachable
state the content window of the `i`-th connected element is the `i`-th frame, and
the same correspondence holds for the snapshots observed inside every load
hook. -/
theorem claim8 (ops : List Op) :
    (∀ i : Nat, i < (run initState ops).1.connected.length →
      contentWindow (run initState ops).1.contexts
          ((run initState ops).1.connected.getD i 0) =
        some ((framesOf (run initState ops).1).getD i 0)) ∧
    (∀ ev ∈ (run initState ops).2, ∀ e conn ctxs, ev = ScriptEvent.load e conn ctxs →
      conn = ctxs.map Prod.fst ∧
      ∀ i : Nat, i < conn.length →
        contentWindow ctxs (conn.getD i 0) = some ((ctxs.map Prod.snd).getD i 0)) := by
  have hInv := run_inv ops initState initState_inv
  constructor
  · intro i hi
    have hnd : ((run initState ops).1.contexts.map Prod.fst).Nodup := by
      rw [hInv.keysConn]
      exact hInv.nodupConn
    have hlen : (run initState ops).1.contexts.length =
        (run initState ops).1.connected.length := by
      have h2 := congrArg List.length hInv.keysConn
      rw [List.length_map] at h2
      exact h2
    have hi' : i < (run initState ops).1.contexts.length := by omega
    have h := contentWindow_getD (run initState ops).1.contexts hnd i hi'
    rw [hInv.keysConn] at h
    exact h
  · intro ev hev e conn ctxs heq
    have hg := run_good ops initState initState_inv ev hev e conn ctxs heq
    refine ⟨hg.1, ?_⟩
    intro i hi
    have hi' : i < ctxs.length := by
      rw [hg.1, List.length_map] at hi
      exact hi
    rw [hg.1]
    exact contentWindow_getD ctxs hg.2 i hi'

theorem claim8_witness :
    (0 < (run initState [Op.insert [4, 6]]).1.connected.length) ∧
    (contentWindow (run initState [Op.insert [4, 6]]).1.contexts
        ((run initState [Op.insert [4, 6]]).1.connected.getD 0 0) =
      some ((framesOf (run initState [Op.insert [4, 6]]).1).getD 0 0)) :=
  ⟨by decide, (claim8 [Op.insert [4, 6]]).1 0 (by decide)⟩

/-- C7: `create_form_for_data` returns a newly built form with one input
element per key/value pair of the data object, each input carrying that
key of that pair and its associated value. -/
theorem claim7 (data : JSObject) (hnd : (data.own.map Prod.fst).Nodup) :
    ((create_form_for_data data).children =
      data.own.map (fun p => HTMLInputElement.mk p.1 p.2)) ∧
    ((create_form_for_data data).children.length = data.own.length) := by
  have h := create_form_children data hnd
  exact ⟨h, by rw [h, List.length_map]⟩

theorem claim7_witness :
    ((JSObject.mk [("a", "1"), ("b", "2")] []).own.map Prod.fst).Nodup ∧
    (((create_form_for_data (JSObject.mk [("a", "1"), ("b", "2")] [])).children =
      (JSObject.mk [("a", "1"), ("b", "2")] []).own.map
        (fun p => HTMLInputElement.mk p.1 p.2)) ∧
    ((create_form_for_data (JSObject.mk [("a", "1"), ("b", "2")] [])).children.length =
      (JSObject.mk [("a", "1"), ("b", "2")] []).own.length)) :=
  ⟨by decide, claim7 (JSObject.mk [("a", "1"), ("b", "2")] []) (by decide)⟩

/-- C9: `create_form_for_data` includes only the own enumerable properties of
its argument — a property reachable only through the prototype chain yields
no input — and the inputs appear in the enumeration order of the object. -/
theorem claim9 (data : JSObject) (hnd : (data.own.map Prod.fst).Nodup) :
    ((create_form_for_data data).children.map HTMLInputElement.type =
      data.own.map Prod.fst) ∧
    (∀ k, k ∈ data.protoProps.map Prod.fst → k ∉ data.own.map Prod.fst →
      ∀ inp ∈ (create_form_for_data data).children, inp.type ≠ k) := by
  have h := create_form_children data hnd
  constructor
  · rw [h, List.map_map]
    rfl
  · intro k hkp hko inp hinp he
    rw [h] at hinp
    obtain ⟨p, hp, hpe⟩ := List.mem_map.mp hinp
    have he' : p.1 = k := by
      rw [← he, ← hpe]
    exact hko (he' ▸ List.mem_map_of_mem Prod.fst hp)

theorem claim9_witness :
    ((JSObject.mk [("a", "1")] [("z", "9")]).own.map Prod.fst).Nodup ∧
    (((create_form_for_data (JSObject.mk [("a", "1")] [("z", "9")])).children.map
        HTMLInputElement.type =
      (JSObject.mk [("a", "1")] [("z", "9")]).own.map Prod.fst) ∧
    (∀ k, k ∈ (JSObject.mk [("a", "1")] [("z", "9")]).protoProps.map Prod.fst →
      k ∉ (JSObject.mk [("a", "1")] [("z", "9")]).own.map Prod.fst →
      ∀ inp ∈ (create_form_for_data (JSObject.mk [("a", "1")] [("z", "9")])).children,
        inp.type ≠ k)) :=
  ⟨by decide, claim9 (JSObject.mk [("a", "1")] [("z", "9")]) (by decide)⟩

/-- C10: `create_form_for_data` never mutates its data argument — the data
object is unchanged by the run — and it is deterministic: equal data objects
produce structurally equal forms. -/
theorem claim10 (d₁ d₂ : JSObject) (h : d₁ = d₂) :
    ((create_form_for_data_run d₁).2 = d₁) ∧
    ((create_form_for_data_run d₁).1 = create_form_for_data d₁) ∧
    (create_form_for_data d₁ = create_form_for_data d₂) := by
  refine ⟨?_, ?_, by rw [h]⟩
  · unfold create_form_for_data_run
    rw [foldl_formStepRun]
  · unfold create_form_for_data_run create_form_for_data
    rw [foldl_formStepRun]

theorem claim10_witness :
    (JSObject.mk [("a", "1")] [] = JSObject.mk [("a", "1")] []) ∧
    (((create_form_for_data_run (JSObject.mk [("a", "1")] [])).2 =
      JSObject.mk [("a", "1")] []) ∧
    ((create_form_for_data_run (JSObject.mk [("a", "1")] [])).1 =
      create_form_for_data (JSObject.mk [("a", "1")] [])) ∧
    (create_form_for_data (JSObject.mk [("a", "1")] []) =
      create_form_for_data (JSObject.mk [("a", "1")] []))) :=
  ⟨rfl, claim10 (JSObject.mk [("a", "1")] []) (JSObject.mk [("a", "1")] []) rfl⟩

end Wpt
